import Mathlib

/-!
Verification of the AudioPWM playback engine (src/micropython/audiopwm.py).

The development shallowly embeds the engine: configuration derivation in
`AudioPWM.init`, the chunk buffer (`AudioPWM.refill`), the sample decoder
(`AudioPWM.next_sample`), the volume scaler (`AudioPWM.apply_volume`), the
drift-free deadline arithmetic of the playback loop (`AudioPWM.waitDeadline`)
and the loop's lifecycle effects on the shared engine state
(`AudioPWM.loop_iter`, `AudioPWM.playback_loop`, `AudioPWM.stop`).

Python floats are modelled by exact rationals.  For the one place where this
matters, the sample period `max(1, int(1_000_000 / sample_rate))`, the float
quotient is within 2^-52 relative error of the exact one while the exact
quotient is at least 1/sample_rate away from the nearest integer, so the
truncation of the float agrees with the truncation of the exact rational for
every positive integer sample rate.
-/

set_option maxRecDepth 8192

namespace AudioPWM

/-- Python `int()` applied to a (real-valued) number: truncation toward zero. -/
def pyTrunc (q : ℚ) : ℤ := if 0 ≤ q then ⌊q⌋ else ⌈q⌉

/-- Errors that abort `AudioPWM.__init__`: the explicit `ValueError` for a bad
bit width (line 36), and the `ZeroDivisionError` raised by
`1_000_000 / sample_rate` (line 64) when the sample rate is zero. -/
inductive InitError where
  | badSampleBits
  | zeroDivision
deriving DecidableEq

/-- The immutable configuration derived by `AudioPWM.__init__`
(lines 34-64 of audiopwm.py). -/
structure Config where
  sampleRate : ℕ
  sampleBits : ℕ
  signed : Bool
  littleEndian : Bool
  bytesPerSample : ℕ
  maxValue : ℕ
  midpoint : ℕ
  dutyScale : ℕ
  chunkSize : ℕ
  periodUs : ℤ
deriving DecidableEq

/-- Chunk-size adjustment of `__init__` (lines 47-55): raise to at least 128,
round up to a multiple of bytes-per-sample, and never below bytes-per-sample. -/
def chunkAdjust (chunkSize bytesPerSample : ℕ) : ℕ :=
  let c := if chunkSize < 128 then 128 else chunkSize
  let remainder := c % bytesPerSample
  let c2 := if remainder ≠ 0 then c + (bytesPerSample - remainder) else c
  if c2 < bytesPerSample then bytesPerSample else c2

/-- The configuration record built by a successful `AudioPWM.__init__`
(lines 34-64): resolved signedness, derived constants, adjusted chunk size and
the sample period `max(1, int(1_000_000 / sample_rate))` in microseconds. -/
def mkConfig (sampleRate chunkSize sampleBits : ℕ) (signed : Option Bool)
    (littleEndian : Bool) : Config :=
  { sampleRate := sampleRate
    sampleBits := sampleBits
    signed := match signed with
      | none => decide (sampleBits ≠ 8)
      | some b => b
    littleEndian := littleEndian
    bytesPerSample := sampleBits / 8
    maxValue := (1 <<< sampleBits) - 1
    midpoint := 1 <<< (sampleBits - 1)
    dutyScale := if sampleBits = 8 then 257 else 1
    chunkSize := chunkAdjust chunkSize (sampleBits / 8)
    periodUs := max 1 (pyTrunc ((1000000 : ℚ) / (sampleRate : ℚ))) }

/-- Model of `AudioPWM.__init__`: raises `ValueError` when the bit width is not 8 or 16
(line 36, checked first); raises `ZeroDivisionError` when the sample rate is 0
(line 64); otherwise produces the derived configuration. -/
def init (sampleRate chunkSize sampleBits : ℕ) (signed : Option Bool)
    (littleEndian : Bool) : Except InitError Config :=
  if ¬ (sampleBits = 8 ∨ sampleBits = 16) then .error .badSampleBits
  else if sampleRate = 0 then .error .zeroDivision
  else .ok (mkConfig sampleRate chunkSize sampleBits signed littleEndian)

/-- The mutable chunk-buffer state of the engine: `_buffer` (a bytearray of
fixed capacity, modelled as a list of byte values), `_buf_len`, `_buf_pos` and
whether `_file` is non-None. -/
structure BufState where
  buffer : List ℕ
  bufLen : ℕ
  bufPos : ℕ
  filePresent : Bool
deriving DecidableEq

/-- The slice assignment `self._buffer[:len(d)] = d` of `_refill`: overwrite
the front of the buffer in place, keeping the tail. -/
def writeFront (buffer d : List ℕ) : List ℕ := d ++ buffer.drop d.length

/-- Model of `AudioPWM._refill` (lines 132-149).  `data` is what
`self._file.read(self._chunk_size)` returned, so callers constrain its length
by the chunk size.  Returns the boolean result together with the updated
buffer state; the state is untouched on every `False` path. -/
def refill (cfg : Config) (s : BufState) (data : List ℕ) : Bool × BufState :=
  if s.filePresent = false then (false, s)
  else if data.length = 0 then (false, s)
  else
    let dataLen := data.length
    let remainder := dataLen % cfg.bytesPerSample
    if remainder ≠ 0 then
      let dataLen2 := dataLen - remainder
      if dataLen2 = 0 then (false, s)
      else (true, { s with buffer := writeFront s.buffer (data.take dataLen2),
                           bufLen := dataLen2, bufPos := 0 })
    else
      (true, { s with buffer := writeFront s.buffer data,
                      bufLen := dataLen, bufPos := 0 })

/-- Model of `AudioPWM._next_sample` (lines 151-172): decode one sample at the cursor
and advance the cursor.  Out-of-range byte reads (which would raise
IndexError in Python) are modelled by a default of 0; the safety claim shows
the playback loop never reaches them. -/
def next_sample (cfg : Config) (s : BufState) : ℤ × BufState :=
  if cfg.bytesPerSample = 1 then
    let sample : ℕ := s.buffer.getD s.bufPos 0
    let s2 := { s with bufPos := s.bufPos + 1 }
    if cfg.signed = true ∧ 128 ≤ sample then ((sample : ℤ) - 256, s2)
    else ((sample : ℤ), s2)
  else
    let start := s.bufPos
    let b0 : ℕ := s.buffer.getD start 0
    let b1 : ℕ := s.buffer.getD (start + 1) 0
    let s2 := { s with bufPos := start + 2 }
    let value : ℕ := if cfg.littleEndian = true then b0 ||| (b1 <<< 8)
      else (b0 <<< 8) ||| b1
    let signBit : ℕ := 1 <<< (cfg.sampleBits - 1)
    let mask : ℕ := (1 <<< cfg.sampleBits) - 1
    if cfg.signed = true ∧ value &&& signBit ≠ 0 then
      ((value : ℤ) - ((mask : ℤ) + 1), s2)
    else ((value : ℤ), s2)

/-- Model of `AudioPWM._apply_volume` (lines 174-192): center the sample, scale by the
gain, round half away from zero by the two `int(... ± 0.5)` branches, shift by
the midpoint, clamp to `[0, max_value]` and scale into the duty range. -/
def apply_volume (cfg : Config) (volume : ℚ) (sample : ℤ) : ℤ :=
  let centered : ℚ :=
    if cfg.signed = true then (sample : ℚ) * volume
    else ((sample : ℚ) - (cfg.midpoint : ℚ)) * volume
  let rounded : ℤ :=
    if 0 ≤ centered then pyTrunc (centered + 1 / 2)
    else pyTrunc (centered - 1 / 2)
  let value : ℤ := rounded + (cfg.midpoint : ℤ)
  let clamped : ℤ :=
    if value < 0 then 0
    else if (cfg.maxValue : ℤ) < value then (cfg.maxValue : ℤ)
    else value
  clamped * (cfg.dutyScale : ℤ)

/-- The gain clamp of `AudioPWM.set_volume` (line 67). -/
def clampGain (gain01 : ℚ) : ℚ :=
  if gain01 < 0 then 0 else if 1 < gain01 then 1 else gain01

/-- Round half away from zero, stated as the specification states it: the
mathematical reference function the volume scaler is claimed to implement. -/
def roundHalfAwayFromZero (q : ℚ) : ℤ :=
  if 0 ≤ q then ⌊q + 1 / 2⌋ else ⌈q - 1 / 2⌉

/-- The specification's description of the volume scaler: duty equals
round-half-away-from-zero of the centered, gain-scaled sample, shifted by the
midpoint, clamped to `[0, max_value]`, times the duty scale. -/
def dutySpec (cfg : Config) (gain : ℚ) (sample : ℤ) : ℤ :=
  let centered : ℚ :=
    if cfg.signed = true then (sample : ℚ) * gain
    else ((sample : ℚ) - (cfg.midpoint : ℚ)) * gain
  min (cfg.maxValue : ℤ) (max 0 (roundHalfAwayFromZero centered + (cfg.midpoint : ℤ)))
    * (cfg.dutyScale : ℤ)

/-- Reference PCM encoding of an integer sample, per the spec's persisted data
format (raw headerless PCM, two's complement for signed formats, the two
16-bit bytes in the configured byte order).  The repository only decodes;
this is the standard encoding its decoder is claimed to invert. -/
def encodeSample (bits : ℕ) (littleEndian : Bool) (v : ℤ) : List ℕ :=
  if bits = 8 then [(v % 256).toNat]
  else
    let u := (v % 65536).toNat
    if littleEndian then [u % 256, u / 256] else [u / 256, u % 256]

/-- Smallest integer representable in the given PCM format. -/
def sampleLo (bits : ℕ) (signed : Bool) : ℤ :=
  if signed then -(2 ^ (bits - 1)) else 0

/-- Largest integer representable in the given PCM format. -/
def sampleHi (bits : ℕ) (signed : Bool) : ℤ :=
  if signed then 2 ^ (bits - 1) - 1 else 2 ^ bits - 1

/-- The mutable engine state shared between the foreground controller and the
background playback thread: `_volume`, the chunk buffer (with `_file`
presence), `_playing`, `_stop_requested`, `_thread_id` presence and the last
value written to `self._pwm.duty_u16`. -/
structure EngineState where
  volume : ℚ
  buf : BufState
  playing : Bool
  stopRequested : Bool
  threadActive : Bool
  duty : ℕ
deriving DecidableEq

/-- Model of `AudioPWM.set_volume` (lines 66-68): clamp the gain and store it. -/
def set_volume (gain01 : ℚ) (s : EngineState) : EngineState :=
  { s with volume := clampGain gain01 }

/-- Model of `AudioPWM.is_playing` (lines 90-91). -/
def is_playing (s : EngineState) : Bool := s.playing

/-- The first two statements of `AudioPWM.stop` (lines 94-95), the writes that
can race with a running worker: set the stop request, clear the playing flag. -/
def stopSignal (s : EngineState) : EngineState :=
  { s with stopRequested := true, playing := false }

/-- The tail of `AudioPWM.stop` after the worker has been joined
(lines 100-108): close the file (tolerating failure), reset the buffer cursor
and valid length, zero the duty output. -/
def stopCleanup (s : EngineState) : EngineState :=
  { s with buf := { s.buf with bufPos := 0, bufLen := 0, filePresent := false },
           duty := 0 }

/-- Model of `AudioPWM.stop` as observed once the worker (if any) has exited:
the signal writes followed by the cleanup writes. -/
def stop (s : EngineState) : EngineState := stopCleanup (stopSignal s)

/-- The state writes of `AudioPWM.play_file` on the successful path
(lines 77-81 and 87): install the opened file, clear the stop request, set the
playing flag, reset the buffer bookkeeping, launch the worker thread. -/
def play_start (s : EngineState) : EngineState :=
  { s with buf := { s.buf with filePresent := true, bufLen := 0, bufPos := 0 },
           stopRequested := false, playing := true, threadActive := true }

/-- The guard of the playback loop (line 115): `while not self._stop_requested`. -/
def loopGuard (s : EngineState) : Bool := !s.stopRequested

/-- The `finally` block of `_playback_loop` (lines 126-130): on every exit of
the loop, clear the playing flag, clear the stop request, release the thread
handle and zero the duty output. -/
def loopFinally (s : EngineState) : EngineState :=
  { s with playing := false, stopRequested := false, threadActive := false,
           duty := 0 }

/-- How the playback loop left its `try` block. -/
inductive LoopExit where
  | stopRequest
  | endOfStream
  | raised
deriving DecidableEq

/-- The decode-and-output part of one loop iteration (lines 119-121): decode
one sample, apply the volume, write the duty register. -/
def loop_work (cfg : Config) (s : EngineState) : EngineState :=
  let r := next_sample cfg s.buf
  { s with buf := r.2, duty := (apply_volume cfg s.volume r.1).toNat }

/-- One iteration of the `try` body of `_playback_loop` (lines 115-125).
`data` is what the source would return if this iteration refills; `none`
injects an exception raised anywhere inside the iteration (read failure,
hardware failure, ...).  The busy wait and deadline bookkeeping of
lines 123-125 touch no shared state and are modelled separately by
`waitDeadline`. -/
def loop_iter (cfg : Config) (data : Option (List ℕ)) (s : EngineState) :
    EngineState × Option LoopExit :=
  if s.stopRequested = true then (s, some .stopRequest)
  else
    match data with
    | none => (s, some .raised)
    | some d =>
      if s.buf.bufLen ≤ s.buf.bufPos then
        match refill cfg s.buf d with
        | (false, b) => ({ s with buf := b }, some .endOfStream)
        | (true, b) => (loop_work cfg { s with buf := b }, none)
      else (loop_work cfg s, none)

/-- The `try` body of `_playback_loop`, iterated: runs until an exit or until
the fuel is spent (`none` marks a loop that is still running). -/
def loop_run (cfg : Config) (events : ℕ → Option (List ℕ)) :
    ℕ → ℕ → EngineState → EngineState × Option LoopExit
  | 0, _, s => (s, none)
  | fuel + 1, k, s =>
    match loop_iter cfg (events k) s with
    | (s1, some e) => (s1, some e)
    | (s1, none) => loop_run cfg events fuel (k + 1) s1

/-- Model of `AudioPWM._playback_loop` (lines 111-130): run the `try` body; whenever it
exits, by stop request, end of stream or a raised error, the `finally` block
runs.  With `_thread`, a raised error terminates only the worker, so the
foreground observes nothing but the resulting state. -/
def playback_loop (cfg : Config) (events : ℕ → Option (List ℕ)) (fuel : ℕ)
    (s : EngineState) : Option (EngineState × LoopExit) :=
  match loop_run cfg events fuel 0 s with
  | (s1, some e) => some (loopFinally s1, e)
  | (_, none) => none

/-- The refill-on-exhaustion head of a loop iteration (lines 116-118),
isolated on the buffer state: the state in which `_next_sample` is then
called, or `none` when the loop breaks on end of stream. -/
def loopFetchState (cfg : Config) (s : BufState) (data : List ℕ) :
    Option BufState :=
  if s.bufLen ≤ s.bufPos then
    match refill cfg s data with
    | (false, _) => none
    | (true, b) => some b
  else some s

/-- MicroPython `time.ticks_add`: tick arithmetic modulo the tick period `M`. -/
def ticks_add (M t delta : ℕ) : ℕ := (t + delta) % M

/-- The deadline update of one loop iteration (lines 123-125): after the busy
wait exits, with the clock reading `now`, the next deadline is computed from
the previous deadline alone; `now` is deliberately not used. -/
def schedStep (M period nextTick now : ℕ) : ℕ := ticks_add M nextTick period

/-- The deadline the playback loop busy-waits on in its k-th iteration, for a
clock whose reading when iteration k's busy wait exits is `now k`: the initial
deadline is `ticks_add(ticks_us(), period)` (line 113) where `t0` is the
clock at loop entry, and each later deadline comes from `schedStep`. -/
def waitDeadline (M period : ℕ) (now : ℕ → ℕ) (t0 : ℕ) : ℕ → ℕ
  | 0 => ticks_add M t0 period
  | k + 1 => schedStep M period (waitDeadline M period now t0 k) (now k)

/-- The buffer invariant of the data model: cursor at most the valid length,
valid length at most the capacity, valid length a multiple of
bytes-per-sample. -/
def BufInv (cfg : Config) (s : BufState) : Prop :=
  s.bufPos ≤ s.bufLen ∧ s.bufLen ≤ s.buffer.length ∧
    cfg.bytesPerSample ∣ s.bufLen

instance (cfg : Config) (s : BufState) : Decidable (BufInv cfg s) := by
  unfold BufInv; infer_instance

/-- The buffer state right after construction: `bytearray(chunk_size)` with
cursor and valid length zero and no file open (lines 57-60). -/
def initBuf (cfg : Config) : BufState :=
  { buffer := List.replicate cfg.chunkSize 0, bufLen := 0, bufPos := 0,
    filePresent := false }

/-- An empty buffer state, used to exercise the lifecycle theorems on
concrete inputs. -/
def emptyBuf : BufState :=
  { buffer := [], bufLen := 0, bufPos := 0, filePresent := false }

/-- A concrete buffer state with an open source and capacity 8. -/
def openBuf8 : BufState :=
  { buffer := List.replicate 8 0, bufLen := 0, bufPos := 0, filePresent := true }

/-- A concrete buffer state with an open source, capacity 128 and a partly
consumed 4-byte valid region. -/
def bigOpenBuf : BufState :=
  { buffer := List.replicate 128 0, bufLen := 4, bufPos := 2,
    filePresent := true }

/-- A concrete engine state with a worker running and a stop request pending. -/
def runningStopState : EngineState :=
  { volume := 1, buf := emptyBuf, playing := true, stopRequested := true,
    threadActive := true, duty := 5 }

/-- A concrete engine state that is playing with no stop request. -/
def playingState : EngineState :=
  { volume := 1, buf := emptyBuf, playing := true, stopRequested := false,
    threadActive := false, duty := 0 }

/-- A concrete engine state mid-drain, with the stop request still set. -/
def drainingState : EngineState :=
  { volume := 0, buf := emptyBuf, playing := false, stopRequested := true,
    threadActive := true, duty := 0 }

/-- A second concrete engine state with no stop request. -/
def otherState : EngineState :=
  { volume := 0, buf := emptyBuf, playing := false, stopRequested := false,
    threadActive := true, duty := 3 }

/-! Helper lemmas. -/

theorem mkConfig_sampleBits (r c b : ℕ) (so : Option Bool) (l : Bool) :
    (mkConfig r c b so l).sampleBits = b := rfl

theorem mkConfig_bytesPerSample (r c b : ℕ) (so : Option Bool) (l : Bool) :
    (mkConfig r c b so l).bytesPerSample = b / 8 := rfl

theorem mkConfig_chunkSize (r c b : ℕ) (so : Option Bool) (l : Bool) :
    (mkConfig r c b so l).chunkSize = chunkAdjust c (b / 8) := rfl

theorem mkConfig_maxValue (r c b : ℕ) (so : Option Bool) (l : Bool) :
    (mkConfig r c b so l).maxValue = (1 <<< b) - 1 := rfl

theorem mkConfig_midpoint (r c b : ℕ) (so : Option Bool) (l : Bool) :
    (mkConfig r c b so l).midpoint = 1 <<< (b - 1) := rfl

theorem mkConfig_dutyScale (r c b : ℕ) (so : Option Bool) (l : Bool) :
    (mkConfig r c b so l).dutyScale = if b = 8 then 257 else 1 := rfl

theorem mkConfig_littleEndian (r c b : ℕ) (so : Option Bool) (l : Bool) :
    (mkConfig r c b so l).littleEndian = l := rfl

theorem mkConfig_signed_some (r c b : ℕ) (sg l : Bool) :
    (mkConfig r c b (some sg) l).signed = sg := rfl

theorem mkConfig_signed_none_8 (r c : ℕ) (l : Bool) :
    (mkConfig r c 8 none l).signed = false := rfl

theorem mkConfig_midpoint_8 (r c : ℕ) (l : Bool) :
    (mkConfig r c 8 none l).midpoint = 128 := rfl

theorem mkConfig_maxValue_8 (r c : ℕ) (l : Bool) :
    (mkConfig r c 8 none l).maxValue = 255 := rfl

theorem mkConfig_dutyScale_8 (r c : ℕ) (l : Bool) :
    (mkConfig r c 8 none l).dutyScale = 257 := rfl

theorem chunkAdjust_spec (c bps : ℕ) (h : bps = 1 ∨ bps = 2) :
    128 ≤ chunkAdjust c bps ∧ bps ∣ chunkAdjust c bps := by
  rcases h with h | h <;> subst h <;>
    simp only [chunkAdjust, ne_eq, ite_not] <;> split_ifs <;> omega

theorem writeFront_length (buffer d : List ℕ) (h : d.length ≤ buffer.length) :
    (writeFront buffer d).length = buffer.length := by
  simp only [writeFront, List.length_append, List.length_drop]
  omega

theorem add_dvd_le {d a b : ℕ} (hd : 0 < d) (hab : a < b) (ha : d ∣ a)
    (hb : d ∣ b) : a + d ≤ b := by
  obtain ⟨x, rfl⟩ := ha
  obtain ⟨y, rfl⟩ := hb
  have hxy : x < y := Nat.lt_of_mul_lt_mul_left hab
  calc d * x + d = d * (x + 1) := by ring
  _ ≤ d * y := Nat.mul_le_mul_left d hxy

theorem refill_spec (cfg : Config) (s : BufState) (data : List ℕ) :
    ((refill cfg s data).1 = false → (refill cfg s data).2 = s) ∧
    ((refill cfg s data).1 = true →
      (refill cfg s data).2.bufPos = 0 ∧
      0 < (refill cfg s data).2.bufLen ∧
      (refill cfg s data).2.bufLen ≤ data.length ∧
      cfg.bytesPerSample ∣ (refill cfg s data).2.bufLen ∧
      (refill cfg s data).2.buffer
        = writeFront s.buffer (data.take (refill cfg s data).2.bufLen) ∧
      (refill cfg s data).2.filePresent = s.filePresent ∧
      (refill cfg s data).2.bufLen
        = data.length - data.length % cfg.bytesPerSample) := by
  simp only [refill, ne_eq, ite_not]
  split_ifs with h1 h2 h3 h4
  · exact ⟨fun _ => rfl, fun h => by simp at h⟩
  · exact ⟨fun _ => rfl, fun h => by simp at h⟩
  · -- remainder zero: the whole read is kept
    refine ⟨fun h => by simp at h, fun _ => ?_⟩
    dsimp only
    rw [h3, Nat.sub_zero, List.take_length]
    exact ⟨rfl, Nat.pos_of_ne_zero h2, le_refl _, Nat.dvd_of_mod_eq_zero h3,
      rfl, rfl, rfl⟩
  · -- remainder nonzero, truncation leaves zero usable bytes
    exact ⟨fun _ => rfl, fun h => by simp at h⟩
  · -- remainder nonzero but a positive truncated length remains
    refine ⟨fun h => by simp at h, fun _ => ?_⟩
    dsimp only
    have hdvd : cfg.bytesPerSample ∣
        data.length - data.length % cfg.bytesPerSample := by
      have := Nat.div_add_mod data.length cfg.bytesPerSample
      exact ⟨data.length / cfg.bytesPerSample, by omega⟩
    exact ⟨rfl, Nat.pos_of_ne_zero h4, Nat.sub_le _ _, hdvd, rfl, rfl, rfl⟩

theorem one_shiftLeft (n : ℕ) : 1 <<< n = 2 ^ n := by
  rw [Nat.shiftLeft_eq, one_mul]

/-! Claim theorems. -/

/-- C8: construction fails with a configuration error exactly when the bit
width is not 8 or 16; unspecified signedness resolves to unsigned for 8-bit
and signed for 16-bit; the derived constants are bytes-per-sample bits/8,
max value 2^bits - 1, midpoint 2^(bits-1), duty scale 257 for 8-bit and 1
for 16-bit. -/
theorem init_config_spec (rate chunk bits : ℕ) (sgo : Option Bool) (le : Bool)
    (cfg8 cfg16 cfg : Config) :
    (init rate chunk bits sgo le = .error .badSampleBits
      ↔ ¬ (bits = 8 ∨ bits = 16)) ∧
    (init rate chunk 8 none le = .ok cfg8 → cfg8.signed = false) ∧
    (init rate chunk 16 none le = .ok cfg16 → cfg16.signed = true) ∧
    (init rate chunk bits sgo le = .ok cfg →
      cfg.bytesPerSample = bits / 8 ∧ cfg.maxValue = 2 ^ bits - 1 ∧
      cfg.midpoint = 2 ^ (bits - 1) ∧
      cfg.dutyScale = if bits = 8 then 257 else 1) := by
  refine ⟨?_, ?_, ?_, ?_⟩
  · unfold init
    split_ifs with h1 h2 <;> simp [h1]
  · intro h
    unfold init at h
    split_ifs at h with h1 h2
    simp only [Except.ok.injEq] at h
    subst h
    simp [mkConfig]
  · intro h
    unfold init at h
    split_ifs at h with h1 h2
    simp only [Except.ok.injEq] at h
    subst h
    simp [mkConfig]
  · intro h
    unfold init at h
    split_ifs at h with h1 h2
    simp only [Except.ok.injEq] at h
    subst h
    simp [mkConfig, one_shiftLeft]

/-- C8 witness: at bit width 8 with defaulted signedness, construction
succeeds, resolves to unsigned, and carries the derived 8-bit constants;
at bit width 12 it fails with the configuration error. -/
theorem init_config_spec_witness :
    init 8000 1024 12 none true = .error .badSampleBits ∧
    (mkConfig 8000 1024 8 none true).signed = false ∧
    (mkConfig 8000 1024 16 none true).signed = true ∧
    (mkConfig 8000 1024 8 none true).maxValue = 2 ^ 8 - 1 := by
  have h8 := init_config_spec 8000 1024 8 none true
    (mkConfig 8000 1024 8 none true) (mkConfig 8000 1024 16 none true)
    (mkConfig 8000 1024 8 none true)
  have h12 := init_config_spec 8000 1024 12 none true
    (mkConfig 8000 1024 8 none true) (mkConfig 8000 1024 16 none true)
    (mkConfig 8000 1024 8 none true)
  exact ⟨h12.1.mpr (by decide), h8.2.1 rfl, h8.2.2.1 rfl, (h8.2.2.2 rfl).2.1⟩

/-- C4 counterexample: at sample rate 6, the code computes
`int(1_000_000 / 6) = 166666` (truncation), while the claimed formula
`max(1, round(1_000_000 / 6))` gives 166667, so the claim as stated fails. -/
theorem period_round_cex :
    init 6 1024 8 none true = .ok (mkConfig 6 1024 8 none true) ∧
    (mkConfig 6 1024 8 none true).periodUs = 166666 ∧
    max 1 (round ((1000000 : ℚ) / (6 : ℚ))) = 166667 := by
  refine ⟨rfl, ?_, ?_⟩
  · show max 1 (pyTrunc ((1000000 : ℚ) / (6 : ℚ))) = 166666
    rw [show ((1000000 : ℚ) / (6 : ℚ)) = 500000 / 3 by norm_num]
    rw [pyTrunc, if_pos (by norm_num)]
    rw [show ⌊(500000 / 3 : ℚ)⌋ = 166666 from Int.floor_eq_iff.mpr (by norm_num)]
    rfl
  · rw [round_eq, show ((1000000 : ℚ) / (6 : ℚ) + 1 / 2) = 2000006 / 12 by norm_num]
    rw [show ⌊(2000006 / 12 : ℚ)⌋ = 166667 from Int.floor_eq_iff.mpr (by norm_num)]
    rfl

/-- C4 amended: for every positive configured sample rate, the sample period
equals `max(1, floor(1_000_000 / sample_rate))` microseconds (the code
truncates the quotient; it does not round it). -/
theorem period_is_floor (rate chunk bits : ℕ) (sgo : Option Bool) (le : Bool)
    (cfg : Config) (hrate : 0 < rate)
    (h : init rate chunk bits sgo le = .ok cfg) :
    cfg.periodUs = max 1 ((1000000 / rate : ℕ) : ℤ) := by
  unfold init at h
  split_ifs at h with h1 h2
  simp only [Except.ok.injEq] at h
  subst h
  show max 1 (pyTrunc ((1000000 : ℚ) / (rate : ℚ))) = _
  have hq : (0 : ℚ) ≤ (1000000 : ℚ) / (rate : ℚ) := by positivity
  rw [pyTrunc, if_pos hq]
  congr 1
  have hfloor : ⌊(1000000 : ℚ) / (rate : ℚ)⌋₊ = 1000000 / rate := by
    rw [show ((1000000 : ℚ)) = ((1000000 : ℕ) : ℚ) by norm_num,
      Nat.floor_div_nat, Nat.floor_natCast]
  calc ⌊(1000000 : ℚ) / (rate : ℚ)⌋
      = ((⌊(1000000 : ℚ) / (rate : ℚ)⌋.toNat : ℕ) : ℤ) :=
        (Int.toNat_of_nonneg (Int.floor_nonneg.mpr hq)).symm
    _ = ((⌊(1000000 : ℚ) / (rate : ℚ)⌋₊ : ℕ) : ℤ) := by rw [Int.floor_toNat]
    _ = ((1000000 / rate : ℕ) : ℤ) := by rw [hfloor]

/-- C4 witness: at sample rate 8000 the period is 125 microseconds. -/
theorem period_is_floor_witness :
    0 < 8000 ∧ (mkConfig 8000 1024 8 none true).periodUs
      = max 1 ((1000000 / 8000 : ℕ) : ℤ) :=
  ⟨by norm_num, period_is_floor 8000 1024 8 none true
    (mkConfig 8000 1024 8 none true) (by norm_num) rfl⟩

/-- C5: the busy-wait deadlines of the playback loop are exactly the first
deadline plus k times the period, in wraparound tick arithmetic, and they do
not depend on the per-iteration clock readings (processing delay): each new
deadline is the previous deadline plus the period, never the current clock
reading plus the period. -/
theorem deadlines_drift_free (M period t0 k : ℕ) (now now2 : ℕ → ℕ)
    (hM : 0 < M) :
    waitDeadline M period now t0 k
      = (waitDeadline M period now t0 0 + k * period) % M ∧
    waitDeadline M period now t0 k = waitDeadline M period now2 t0 k := by
  constructor
  · induction k with
    | zero =>
      simp only [waitDeadline, Nat.zero_mul, Nat.add_zero, ticks_add]
      exact (Nat.mod_mod_of_dvd _ (dvd_refl M)).symm
    | succ k ih =>
      show ticks_add M (waitDeadline M period now t0 k) period = _
      rw [ih, ticks_add, Nat.mod_add_mod]
      congr 1
      ring
  · induction k with
    | zero => rfl
    | succ k ih =>
      show ticks_add M (waitDeadline M period now t0 k) period
        = ticks_add M (waitDeadline M period now2 t0 k) period
      rw [ih]

/-- C5 witness: with the MicroPython tick modulus 2^30, a 125 microsecond
period and two different simulated delay traces, the fourth deadline is the
first deadline plus 3 periods. -/
theorem deadlines_drift_free_witness :
    0 < 2 ^ 30 ∧
    (waitDeadline (2 ^ 30) 125 (fun _ => 0) 17 3
        = (waitDeadline (2 ^ 30) 125 (fun _ => 0) 17 0 + 3 * 125) % 2 ^ 30 ∧
      waitDeadline (2 ^ 30) 125 (fun _ => 0) 17 3
        = waitDeadline (2 ^ 30) 125 (fun i => 1000 * i + 7) 17 3) :=
  ⟨by norm_num,
    deadlines_drift_free (2 ^ 30) 125 17 3 (fun _ => 0) (fun i => 1000 * i + 7)
      (by norm_num)⟩

/-- C10: whenever the background playback loop exits, whether by stop
request, end of stream or a raised error, the final state has the playing
flag cleared, the stop-request flag cleared, the thread handle released and
the duty output zeroed; the foreground-observable outcome is the same for
every exit cause, so a background failure shows up only as `is_playing`
becoming false. -/
theorem playback_loop_cleanup (cfg : Config) (events events2 : ℕ → Option (List ℕ))
    (fuel fuel2 : ℕ) (s s1 s2 : EngineState) (e e2 : LoopExit)
    (h : playback_loop cfg events fuel s = some (s1, e))
    (h2 : playback_loop cfg events2 fuel2 s = some (s2, e2))
    (hsame : (loop_run cfg events fuel 0 s).1 = (loop_run cfg events2 fuel2 0 s).1) :
    s1.playing = false ∧ s1.stopRequested = false ∧ s1.threadActive = false ∧
    s1.duty = 0 ∧ is_playing s1 = false ∧ s1 = s2 := by
  unfold playback_loop at h h2
  rcases hr : loop_run cfg events fuel 0 s with ⟨a, b⟩
  rcases hr2 : loop_run cfg events2 fuel2 0 s with ⟨a2, b2⟩
  rw [hr] at h hsame
  rw [hr2] at h2 hsame
  cases b with
  | none => simp at h
  | some eb =>
    cases b2 with
    | none => simp at h2
    | some eb2 =>
      simp only [Option.some.injEq, Prod.mk.injEq] at h h2
      obtain ⟨hs1, -⟩ := h
      obtain ⟨hs2, -⟩ := h2
      subst hs1
      subst hs2
      simp only at hsame
      subst hsame
      exact ⟨rfl, rfl, rfl, rfl, rfl, rfl⟩

/-- C10 witness: a loop entered with a pending stop request exits via the
stop-request path after one iteration with all four fields cleared. -/
theorem playback_loop_cleanup_witness :
    playback_loop (mkConfig 8000 1024 8 none true) (fun _ => some []) 1
        runningStopState
      = some (loopFinally runningStopState, LoopExit.stopRequest) ∧
    (loopFinally runningStopState).playing = false := by
  have h := playback_loop_cleanup (mkConfig 8000 1024 8 none true)
    (fun _ => some []) (fun _ => some []) 1 1 runningStopState
    (loopFinally runningStopState) (loopFinally runningStopState)
    LoopExit.stopRequest LoopExit.stopRequest rfl rfl rfl
  exact ⟨rfl, h.1⟩

/-- C9 counterexample: the claim says the foreground writes only the
stop-request flag and the background only reads it, but `stop()` clears the
playing flag from the foreground, and the loop's `finally` block clears the
stop-request flag from the background. -/
theorem shared_flags_claim_cex :
    (stop playingState).playing ≠ playingState.playing ∧
    (loopFinally drainingState).stopRequested ≠ drainingState.stopRequested := by
  constructor
  · simp [stop, stopSignal, stopCleanup, playingState]
  · simp [loopFinally, drainingState]

/-- C9 amended: among the two shared flags, the foreground writes the
stop-request flag and also the playing flag (`stop` sets stop-request and
clears playing; `play_file` clears stop-request and sets playing;
`set_volume` writes neither) and reads the playing flag via `is_playing`;
the background loop reads only the stop-request flag in its guard and, on
exit, writes both flags (clears playing and stop-request). -/
theorem shared_flags_access (s s2 : EngineState) (g : ℚ)
    (hflag : s.stopRequested = s2.stopRequested) :
    (stopSignal s).stopRequested = true ∧ (stopSignal s).playing = false ∧
    (play_start s).stopRequested = false ∧ (play_start s).playing = true ∧
    (set_volume g s).stopRequested = s.stopRequested ∧
    (set_volume g s).playing = s.playing ∧
    is_playing s = s.playing ∧
    loopGuard s = loopGuard s2 ∧
    (loopFinally s).playing = false ∧ (loopFinally s).stopRequested = false := by
  refine ⟨rfl, rfl, rfl, rfl, rfl, rfl, rfl, ?_, rfl, rfl⟩
  simp [loopGuard, hflag]

/-- C9 amended witness: the access pattern at a concrete state pair with
equal stop-request flags. -/
theorem shared_flags_access_witness :
    playingState.stopRequested = otherState.stopRequested ∧
    (stopSignal playingState).playing = false :=
  ⟨rfl, (shared_flags_access playingState otherState (1 / 2) rfl).2.1⟩

/-- C3: with a source attached, `refill` reports end of stream (false)
exactly when the read returned zero bytes or truncating the read length down
to the nearest multiple of bytes-per-sample leaves zero usable bytes;
otherwise it returns true, resets the cursor to 0, sets the valid length to
the truncated size and overwrites the buffer front in place. -/
theorem refill_eos_iff (cfg : Config) (s : BufState) (data : List ℕ)
    (hfile : s.filePresent = true) :
    ((refill cfg s data).1 = false ↔
      data.length = 0 ∨
        data.length - data.length % cfg.bytesPerSample = 0) ∧
    ((refill cfg s data).1 = true →
      (refill cfg s data).2.bufPos = 0 ∧
      (refill cfg s data).2.bufLen
        = data.length - data.length % cfg.bytesPerSample ∧
      (refill cfg s data).2.buffer
        = writeFront s.buffer
            (data.take (data.length - data.length % cfg.bytesPerSample))) := by
  constructor
  · simp only [refill, hfile]
    rw [if_neg (by simp)]
    split_ifs with h1 h2 h3 <;> simp_all <;> omega
  · intro h
    have hs := (refill_spec cfg s data).2 h
    obtain ⟨hpos, -, -, -, hbuffer, -, hlen⟩ := hs
    exact ⟨hpos, hlen, by rw [hbuffer, hlen]⟩

/-- C3 witness: a 3-byte read into a 16-bit (2 bytes per sample) buffer is
truncated to 2 valid bytes, and refill succeeds with cursor 0. -/
theorem refill_eos_iff_witness :
    ((refill (mkConfig 8000 1024 16 (some true) true) openBuf8 [1, 2, 3]).1
        = false ↔
      ([1, 2, 3] : List ℕ).length = 0 ∨
        ([1, 2, 3] : List ℕ).length - ([1, 2, 3] : List ℕ).length
          % (mkConfig 8000 1024 16 (some true) true).bytesPerSample = 0) ∧
    ((refill (mkConfig 8000 1024 16 (some true) true) openBuf8 [1, 2, 3]).1
        = true →
      (refill (mkConfig 8000 1024 16 (some true) true) openBuf8 [1, 2, 3]).2.bufPos
        = 0 ∧
      (refill (mkConfig 8000 1024 16 (some true) true) openBuf8 [1, 2, 3]).2.bufLen
        = ([1, 2, 3] : List ℕ).length - ([1, 2, 3] : List ℕ).length
            % (mkConfig 8000 1024 16 (some true) true).bytesPerSample ∧
      (refill (mkConfig 8000 1024 16 (some true) true) openBuf8 [1, 2, 3]).2.buffer
        = writeFront openBuf8.buffer
            (([1, 2, 3] : List ℕ).take (([1, 2, 3] : List ℕ).length
              - ([1, 2, 3] : List ℕ).length
                % (mkConfig 8000 1024 16 (some true) true).bytesPerSample))) :=
  refill_eos_iff (mkConfig 8000 1024 16 (some true) true) openBuf8 [1, 2, 3] rfl

/-- C6: every operation preserves the buffer invariant (cursor at most valid
length, valid length at most capacity and a multiple of bytes-per-sample):
construction makes the chunk size at least 128 and a multiple of
bytes-per-sample and starts with an empty valid region; a successful refill
re-establishes the invariant with cursor 0 and valid length at most the chunk
size; a failed refill leaves the state untouched; the decoder preserves the
invariant under its precondition; and stop resets cursor and valid length to
zero. -/
theorem buffer_invariant (rate chunk bits : ℕ) (sgo : Option Bool) (le : Bool)
    (cfg : Config) (s : BufState) (data : List ℕ) (e : EngineState)
    (hinit : init rate chunk bits sgo le = .ok cfg)
    (hs : BufInv cfg s) (hcap : s.buffer.length = cfg.chunkSize)
    (hdata : data.length ≤ cfg.chunkSize) :
    (128 ≤ cfg.chunkSize ∧ cfg.bytesPerSample ∣ cfg.chunkSize) ∧
    BufInv cfg (initBuf cfg) ∧
    ((refill cfg s data).1 = true →
      BufInv cfg (refill cfg s data).2 ∧ (refill cfg s data).2.bufPos = 0 ∧
      (refill cfg s data).2.bufLen ≤ cfg.chunkSize ∧
      (refill cfg s data).2.buffer.length = cfg.chunkSize) ∧
    ((refill cfg s data).1 = false → (refill cfg s data).2 = s) ∧
    (s.bufPos + cfg.bytesPerSample ≤ s.bufLen →
      BufInv cfg (next_sample cfg s).2) ∧
    ((stop e).buf.bufPos = 0 ∧ (stop e).buf.bufLen = 0) := by
  unfold init at hinit
  split_ifs at hinit with h1 h2
  simp only [Except.ok.injEq] at hinit
  subst hinit
  have hbps2 : bits / 8 = 1 ∨ bits / 8 = 2 := by
    rcases h1 with h | h <;> subst h <;> norm_num
  refine ⟨?_, ?_, ?_, (refill_spec _ s data).1, ?_,
    ⟨rfl, rfl⟩⟩
  · rw [mkConfig_chunkSize, mkConfig_bytesPerSample]
    exact chunkAdjust_spec chunk (bits / 8) hbps2
  · simp [BufInv, initBuf]
  · intro h
    obtain ⟨hpos, hlt, hle, hdvd, hbuffer, -, -⟩ := (refill_spec _ s data).2 h
    have hlen2 : ((refill (mkConfig rate chunk bits sgo le) s data).2.buffer).length
        = s.buffer.length := by
      rw [hbuffer]
      apply writeFront_length
      rw [List.length_take, hcap]
      exact le_trans (min_le_right _ _) hdata
    refine ⟨⟨?_, ?_, hdvd⟩, hpos, le_trans hle hdata, by rw [hlen2, hcap]⟩
    · rw [hpos]
      exact Nat.zero_le _
    · rw [hlen2, hcap]
      exact le_trans hle hdata
  · intro hdec
    obtain ⟨hps, hlc, hdv⟩ := hs
    rw [mkConfig_bytesPerSample] at hdec hdv
    unfold BufInv
    rcases hbps2 with h | h
    · rw [h] at hdec hdv
      have hns : (next_sample (mkConfig rate chunk bits sgo le) s).2
          = { s with bufPos := s.bufPos + 1 } := by
        simp [next_sample, mkConfig_bytesPerSample, h, apply_ite Prod.snd]
      rw [hns, mkConfig_bytesPerSample, h]
      exact ⟨by dsimp only; omega, hlc, hdv⟩
    · rw [h] at hdec hdv
      have hns : (next_sample (mkConfig rate chunk bits sgo le) s).2
          = { s with bufPos := s.bufPos + 2 } := by
        simp [next_sample, mkConfig_bytesPerSample, h, apply_ite Prod.snd]
      rw [hns, mkConfig_bytesPerSample, h]
      exact ⟨by dsimp only; omega, hlc, hdv⟩

/-- C6 witness: the invariant chain at the 16-bit default configuration, a
concrete open buffer and a 3-byte read. -/
theorem buffer_invariant_witness :
    ((128 ≤ (mkConfig 8000 6 16 none true).chunkSize ∧
      (mkConfig 8000 6 16 none true).bytesPerSample
        ∣ (mkConfig 8000 6 16 none true).chunkSize) ∧
    BufInv (mkConfig 8000 6 16 none true)
      (initBuf (mkConfig 8000 6 16 none true)) ∧
    ((refill (mkConfig 8000 6 16 none true) bigOpenBuf [1, 2, 3]).1 = true →
      BufInv (mkConfig 8000 6 16 none true)
          (refill (mkConfig 8000 6 16 none true) bigOpenBuf [1, 2, 3]).2 ∧
        (refill (mkConfig 8000 6 16 none true) bigOpenBuf [1, 2, 3]).2.bufPos
          = 0 ∧
        (refill (mkConfig 8000 6 16 none true) bigOpenBuf [1, 2, 3]).2.bufLen
          ≤ (mkConfig 8000 6 16 none true).chunkSize ∧
        (refill (mkConfig 8000 6 16 none true) bigOpenBuf
            [1, 2, 3]).2.buffer.length
          = (mkConfig 8000 6 16 none true).chunkSize) ∧
    ((refill (mkConfig 8000 6 16 none true) bigOpenBuf [1, 2, 3]).1 = false →
      (refill (mkConfig 8000 6 16 none true) bigOpenBuf [1, 2, 3]).2
        = bigOpenBuf) ∧
    (bigOpenBuf.bufPos + (mkConfig 8000 6 16 none true).bytesPerSample
        ≤ bigOpenBuf.bufLen →
      BufInv (mkConfig 8000 6 16 none true)
        (next_sample (mkConfig 8000 6 16 none true) bigOpenBuf).2) ∧
    ((stop playingState).buf.bufPos = 0 ∧
      (stop playingState).buf.bufLen = 0)) :=
  buffer_invariant 8000 6 16 none true (mkConfig 8000 6 16 none true)
    bigOpenBuf [1, 2, 3] playingState rfl (by decide) (by decide) (by decide)

/-- C7: starting from any state satisfying the buffer invariant with a
sample-aligned cursor, the refill-on-exhaustion head of a loop iteration
either breaks the loop or hands `_next_sample` a state in which the decoder
precondition `cursor + bytes_per_sample ≤ valid_length` holds, all its byte
accesses are in bounds, and the cursor advances by exactly bytes-per-sample,
staying sample-aligned. -/
theorem decoder_safe (rate chunk bits : ℕ) (sgo : Option Bool) (le : Bool)
    (cfg : Config) (s s2 : BufState) (data : List ℕ)
    (hinit : init rate chunk bits sgo le = .ok cfg)
    (hs : BufInv cfg s) (hpos : cfg.bytesPerSample ∣ s.bufPos)
    (hcap : s.buffer.length = cfg.chunkSize)
    (hdata : data.length ≤ cfg.chunkSize)
    (hfetch : loopFetchState cfg s data = some s2) :
    s2.bufPos + cfg.bytesPerSample ≤ s2.bufLen ∧
    s2.bufLen ≤ s2.buffer.length ∧
    (next_sample cfg s2).2.bufPos = s2.bufPos + cfg.bytesPerSample ∧
    cfg.bytesPerSample ∣ (next_sample cfg s2).2.bufPos := by
  unfold init at hinit
  split_ifs at hinit with h1 h2
  simp only [Except.ok.injEq] at hinit
  subst hinit
  have hbps2 : bits / 8 = 1 ∨ bits / 8 = 2 := by
    rcases h1 with h | h <;> subst h <;> norm_num
  have hbpspos : 0 < bits / 8 := by rcases hbps2 with h | h <;> omega
  have hnsp : ∀ t : BufState,
      (next_sample (mkConfig rate chunk bits sgo le) t).2.bufPos
        = t.bufPos + bits / 8 := by
    intro t
    rcases hbps2 with h | h
    · have ht : (next_sample (mkConfig rate chunk bits sgo le) t).2
          = { t with bufPos := t.bufPos + 1 } := by
        simp [next_sample, mkConfig_bytesPerSample, h, apply_ite Prod.snd]
      rw [ht, h]
    · have ht : (next_sample (mkConfig rate chunk bits sgo le) t).2
          = { t with bufPos := t.bufPos + 2 } := by
        simp [next_sample, mkConfig_bytesPerSample, h, apply_ite Prod.snd]
      rw [ht, h]
  obtain ⟨hps, hlc, hdv⟩ := hs
  rw [mkConfig_bytesPerSample] at hpos hdv ⊢
  unfold loopFetchState at hfetch
  split_ifs at hfetch with hexh
  · rcases hr : refill (mkConfig rate chunk bits sgo le) s data with ⟨ok, b⟩
    rw [hr] at hfetch
    cases ok
    · simp at hfetch
    · simp only [Option.some.injEq] at hfetch
      obtain ⟨hpos0, hlt, hle, hdvd, hbuffer, -, -⟩ :=
        (refill_spec (mkConfig rate chunk bits sgo le) s data).2 (by rw [hr])
      rw [hr] at hpos0 hlt hle hdvd hbuffer
      rw [mkConfig_bytesPerSample] at hdvd
      subst hfetch
      have hblen : b.buffer.length = s.buffer.length := by
        rw [hbuffer]
        apply writeFront_length
        rw [List.length_take, hcap]
        exact le_trans (min_le_right _ _) hdata
      refine ⟨?_, ?_, by rw [hnsp], ?_⟩
      · rw [hpos0, Nat.zero_add]
        exact Nat.le_of_dvd hlt hdvd
      · rw [hblen, hcap]
        exact le_trans hle hdata
      · rw [hnsp, hpos0, Nat.zero_add]
  · simp only [Option.some.injEq] at hfetch
    subst hfetch
    refine ⟨add_dvd_le hbpspos (by omega) hpos hdv, hlc, by rw [hnsp], ?_⟩
    rw [hnsp]
    exact dvd_add hpos dvd_rfl

/-- C7 witness: at the 16-bit default configuration and a concrete aligned
buffer state mid-chunk, the fetch head yields a state where the decoder
precondition and bounds hold and the cursor advances by 2. -/
theorem decoder_safe_witness :
    bigOpenBuf.bufPos + (mkConfig 8000 6 16 none true).bytesPerSample
      ≤ bigOpenBuf.bufLen ∧
    bigOpenBuf.bufLen ≤ bigOpenBuf.buffer.length ∧
    (next_sample (mkConfig 8000 6 16 none true) bigOpenBuf).2.bufPos
      = bigOpenBuf.bufPos + (mkConfig 8000 6 16 none true).bytesPerSample ∧
    (mkConfig 8000 6 16 none true).bytesPerSample
      ∣ (next_sample (mkConfig 8000 6 16 none true) bigOpenBuf).2.bufPos :=
  decoder_safe 8000 6 16 none true (mkConfig 8000 6 16 none true)
    bigOpenBuf bigOpenBuf [1, 2, 3] rfl (by decide) (by decide) (by decide)
    (by decide) (by decide)

theorem pyTrunc_half_round (q : ℚ) :
    (if 0 ≤ q then pyTrunc (q + 1 / 2) else pyTrunc (q - 1 / 2))
      = roundHalfAwayFromZero q := by
  by_cases h : 0 ≤ q
  · rw [if_pos h, roundHalfAwayFromZero, if_pos h, pyTrunc,
      if_pos (by linarith)]
  · rw [if_neg h, roundHalfAwayFromZero, if_neg h, pyTrunc,
      if_neg (by push_neg at h ⊢; linarith)]

theorem clamp_eq_min_max (maxv : ℕ) (v : ℤ) :
    (if v < 0 then 0 else if (maxv : ℤ) < v then (maxv : ℤ) else v)
      = min (maxv : ℤ) (max 0 v) := by
  split_ifs <;> omega

theorem floor_half : ⌊(1 / 2 : ℚ)⌋ = 0 :=
  Int.floor_eq_iff.mpr (by norm_num)

/-- C1: the volume scaler computes exactly the specification formula, round
half away from zero of the centered gain-scaled sample plus the midpoint,
clamped to `[0, max_value]` and multiplied by the duty scale; in particular,
for unsigned 8-bit input, sample 128 at gain 1 gives duty 128 * 257 = 32896,
and any sample at gain 0 gives duty 128 * 257 = 32896. -/
theorem apply_volume_spec (cfg : Config) (gain : ℚ) (sample s8 : ℤ)
    (h0 : 0 ≤ gain) (h1 : gain ≤ 1) :
    apply_volume cfg gain sample = dutySpec cfg gain sample ∧
    apply_volume (mkConfig 8000 1024 8 none true) 1 128 = 32896 ∧
    apply_volume (mkConfig 8000 1024 8 none true) 0 s8 = 32896 := by
  refine ⟨?_, ?_, ?_⟩
  · simp only [apply_volume, dutySpec]
    rw [pyTrunc_half_round, clamp_eq_min_max]
  · simp only [apply_volume]
    norm_num [mkConfig_signed_none_8, mkConfig_midpoint_8,
      mkConfig_maxValue_8, mkConfig_dutyScale_8, pyTrunc, floor_half]
  · simp only [apply_volume]
    norm_num [mkConfig_signed_none_8, mkConfig_midpoint_8,
      mkConfig_maxValue_8, mkConfig_dutyScale_8, pyTrunc, floor_half]

/-- C1 witness: at gain 1/2 (inside `[0,1]`) and a signed sample, the code
path agrees with the specification formula; the concrete 8-bit cases hold. -/
theorem apply_volume_spec_witness :
    (0 : ℚ) ≤ 1 / 2 ∧
    (apply_volume (mkConfig 8000 1024 16 none true) (1 / 2) (-3)
        = dutySpec (mkConfig 8000 1024 16 none true) (1 / 2) (-3) ∧
      apply_volume (mkConfig 8000 1024 8 none true) 1 128 = 32896 ∧
      apply_volume (mkConfig 8000 1024 8 none true) 0 200 = 32896) :=
  ⟨by norm_num, apply_volume_spec (mkConfig 8000 1024 16 none true) (1 / 2)
    (-3) 200 (by norm_num) (by norm_num)⟩

theorem lor_low (a b : ℕ) (ha : a < 256) : a ||| b <<< 8 = a + b * 256 := by
  apply Nat.eq_of_testBit_eq
  intro i
  rw [Nat.testBit_lor, Nat.testBit_shiftLeft]
  by_cases hi : i < 8
  · have h8 : ¬ (8 ≤ i) := by omega
    simp only [ge_iff_le, decide_eq_false h8, Bool.false_and, Bool.or_false]
    have hmod : (a + b * 256) % 2 ^ 8 = a := by
      rw [show (2 : ℕ) ^ 8 = 256 from by norm_num]
      omega
    have ht := Nat.testBit_mod_two_pow (a + b * 256) 8 i
    rw [hmod] at ht
    rw [ht]
    simp [hi]
  · have h8 : 8 ≤ i := by omega
    have hfa : a.testBit i = false := by
      apply Nat.testBit_eq_false_of_lt
      calc a < 256 := ha
      _ = 2 ^ 8 := by norm_num
      _ ≤ 2 ^ i := Nat.pow_le_pow_right (by norm_num) h8
    simp only [ge_iff_le, decide_eq_true h8, Bool.true_and, hfa, Bool.false_or]
    rw [Nat.testBit_to_div_mod, Nat.testBit_to_div_mod]
    have hpow : (2 : ℕ) ^ i = 256 * 2 ^ (i - 8) := by
      rw [show (256 : ℕ) = 2 ^ 8 from by norm_num, ← pow_add]
      congr 1
      omega
    rw [hpow, ← Nat.div_div_eq_div_mul]
    have hdiv : (a + b * 256) / 256 = b := by omega
    rw [hdiv]

theorem and_signbit_iff (u : ℕ) (hu : u < 65536) :
    (u &&& 32768 ≠ 0) ↔ 32768 ≤ u := by
  rw [show (32768 : ℕ) = 2 ^ 15 from by norm_num, Nat.and_two_pow,
    Nat.testBit_to_div_mod, show (2 : ℕ) ^ 15 = 32768 from by norm_num]
  by_cases h : u / 32768 % 2 = 1
  · rw [decide_eq_true h]
    simp only [Bool.toNat_true, one_mul, ne_eq]
    constructor
    · intro
      omega
    · intro
      norm_num
  · rw [decide_eq_false h]
    simp only [Bool.toNat_false, zero_mul, ne_eq]
    constructor
    · intro hcontra
      exact absurd trivial hcontra
    · intro hge
      exfalso
      omega

theorem decode8 (sg le2 : Bool) (v : ℤ) (rate chunk : ℕ)
    (hlo : sampleLo 8 sg ≤ v) (hhi : v ≤ sampleHi 8 sg) :
    (next_sample (mkConfig rate chunk 8 (some sg) le2)
      { buffer := encodeSample 8 le2 v, bufLen := 1, bufPos := 0,
        filePresent := true }).1 = v := by
  simp only [sampleLo, sampleHi] at hlo hhi
  simp only [next_sample, mkConfig_bytesPerSample, mkConfig_signed_some,
    encodeSample]
  norm_num
  cases sg
  · simp only [Bool.false_eq_true, false_and, if_false]
    simp only [Bool.false_eq_true, if_false] at hlo hhi
    norm_num at hhi
    omega
  · simp only [true_and, if_true] at hlo hhi ⊢
    norm_num at hlo hhi
    split_ifs with hc
    · omega
    · omega

theorem decode16 (sg le2 : Bool) (v : ℤ) (rate chunk : ℕ)
    (hlo : sampleLo 16 sg ≤ v) (hhi : v ≤ sampleHi 16 sg) :
    (next_sample (mkConfig rate chunk 16 (some sg) le2)
      { buffer := encodeSample 16 le2 v, bufLen := 2, bufPos := 0,
        filePresent := true }).1 = v := by
  simp only [sampleLo, sampleHi] at hlo hhi
  have hu : (v % 65536).toNat < 65536 := by omega
  have hvalue :
      (if le2 = true then
          ((v % 65536).toNat % 256) ||| ((v % 65536).toNat / 256) <<< 8
        else
          (((v % 65536).toNat / 256) <<< 8) ||| ((v % 65536).toNat % 256))
        = (v % 65536).toNat := by
    cases le2
    · rw [if_neg (by simp), Nat.lor_comm, lor_low _ _ (by omega)]
      omega
    · rw [if_pos rfl, lor_low _ _ (by omega)]
      omega
  simp only [next_sample, mkConfig_bytesPerSample, mkConfig_signed_some,
    mkConfig_littleEndian, mkConfig_sampleBits, encodeSample]
  norm_num
  cases le2 <;> cases sg <;>
    simp only [Bool.false_eq_true, Bool.true_eq_false, if_false, if_true,
      false_and, true_and, List.getD_cons_zero, List.getD_cons_succ] <;>
    simp only [Bool.false_eq_true, Bool.true_eq_false, if_false, if_true]
      at hlo hhi hvalue <;>
    norm_num at hlo hhi ⊢
  · rw [hvalue]
    omega
  · rw [hvalue, show (1 <<< 15 : ℕ) = 32768 from rfl,
      show ((1 <<< 16 - 1 : ℕ)) = 65535 from rfl]
    split_ifs with hb
    · dsimp only
      have hlt : ¬ (32768 ≤ (v % 65536).toNat) :=
        fun hge => ((and_signbit_iff _ hu).mpr hge) hb
      omega
    · dsimp only
      have hge := (and_signbit_iff _ hu).mp hb
      push_cast
      omega
  · rw [hvalue]
    omega
  · rw [hvalue, show (1 <<< 15 : ℕ) = 32768 from rfl,
      show ((1 <<< 16 - 1 : ℕ)) = 65535 from rfl]
    split_ifs with hb
    · dsimp only
      have hlt : ¬ (32768 ≤ (v % 65536).toNat) :=
        fun hge => ((and_signbit_iff _ hu).mpr hge) hb
      omega
    · dsimp only
      have hge := (and_signbit_iff _ hu).mp hb
      push_cast
      omega

/-- C2: for every valid combination of bit width, signedness and byte order,
decoding (via `_next_sample`) the bytes produced by encoding a representable
integer sample in the same format returns that exact integer. -/
theorem decode_encode_roundtrip (rate chunk bits : ℕ) (sg le2 : Bool)
    (cfg : Config) (v : ℤ)
    (hinit : init rate chunk bits (some sg) le2 = .ok cfg)
    (hlo : sampleLo bits sg ≤ v) (hhi : v ≤ sampleHi bits sg) :
    (next_sample cfg
      { buffer := encodeSample bits le2 v, bufLen := bits / 8,
        bufPos := 0, filePresent := true }).1 = v := by
  unfold init at hinit
  split_ifs at hinit with h1 h2
  simp only [Except.ok.injEq] at hinit
  subst hinit
  rcases h1 with h | h <;> subst h
  · exact decode8 sg le2 v rate chunk hlo hhi
  · exact decode16 sg le2 v rate chunk hlo hhi

/-- C2 witness: the 16-bit signed little-endian round trip at sample
`-12345`. -/
theorem decode_encode_roundtrip_witness :
    sampleLo 16 true ≤ (-12345 : ℤ) ∧ ((-12345 : ℤ) ≤ sampleHi 16 true) ∧
    (next_sample (mkConfig 8000 1024 16 (some true) true)
      { buffer := encodeSample 16 true (-12345), bufLen := 16 / 8, bufPos := 0,
        filePresent := true }).1 = -12345 :=
  ⟨by decide, by decide,
    decode_encode_roundtrip 8000 1024 16 true true
      (mkConfig 8000 1024 16 (some true) true) (-12345) rfl (by decide)
      (by decide)⟩

end AudioPWM
